import Mathlib

/-!
# Verification of the "Gathering" web scraper

A shallow embedding of the two source files of the repository:

* `src/application.js` — class `Application` (`run`, `extractDates`,
  `extractCinema`, `extractRestaurant`);
* `links-scraper.js` — class `LinkScraper` (`extractLinks`,
  `parseHtmlDates`, `iterateMovieDates`, `restaurantAuthentication`,
  `sortAvailability`).

Network fetches and DOM parsing are I/O collaborators: each embedded
function takes the already-extracted data (anchor `href` attribute values,
`<option>` entries, JSON entries, slot-code input values, login-response
headers) as explicit arguments and models the JavaScript computation on
them.  JavaScript string and number primitives (`parseInt`, `Number`,
`slice`, `split`, `startsWith`, `toLowerCase`, default `Array.sort`,
template-literal interpolation of `null` / `undefined` / `NaN`, `Set`
deduplication) are modelled on the value domains this program feeds them:
ASCII text and non-negative decimal payloads without sign, whitespace or
exponent syntax.  All string work happens on the character list `s.data`,
which for these domains coincides with JavaScript's code-unit view.
-/

namespace Scraper

/-! ## JavaScript primitive models -/

/-- Decimal value of a list of digit characters (most significant first). -/
def digitsVal (cs : List Char) : Nat :=
  cs.foldl (fun acc c => acc * 10 + (c.toNat - 48)) 0

/-- Model of JavaScript `parseInt(s)` on the strings this program feeds it:
the longest digit prefix is converted; no digit prefix gives `NaN`,
modelled as `none`. -/
def jsParseInt (s : String) : Option Nat :=
  let ds := s.data.takeWhile Char.isDigit
  if ds.isEmpty then none else some (digitsVal ds)

/-- Model of JavaScript `Number(s)` on the strings this program feeds it:
an all-digit string is converted (the empty string gives `0`), anything
else is `NaN`, modelled as `none`. -/
def jsNumber (s : String) : Option Nat :=
  if s.data.all Char.isDigit then some (digitsVal s.data) else none

/-- JavaScript strict inequality `a !== b` on two numbers that may be
`NaN`: any comparison involving `NaN` is _true_ for `!==`. -/
def jsStrictNe (a b : Option Nat) : Bool :=
  match a, b with
  | some x, some y => x != y
  | _, _ => true

/-- JavaScript strict equality `a === b` on two numbers that may be
`NaN`: any comparison involving `NaN` is _false_ for `===`. -/
def jsStrictEq (a b : Option Nat) : Bool :=
  match a, b with
  | some x, some y => x == y
  | _, _ => false

/-- JavaScript `s.slice(a, b)` for `0 ≤ a ≤ b` (counted in characters). -/
def jsSlice (s : String) (a b : Nat) : String :=
  ⟨(s.data.drop a).take (b - a)⟩

/-- JavaScript `s.slice(a)` for `0 ≤ a`. -/
def jsSliceFrom (s : String) (a : Nat) : String :=
  ⟨s.data.drop a⟩

/-- JavaScript `s.startsWith(p)`. -/
def jsStartsWith (s p : String) : Bool :=
  p.data.isPrefixOf s.data

/-- ASCII lowering of one character, as `String.prototype.toLowerCase`
acts on the day names this program lowercases. -/
def charToLower (c : Char) : Char :=
  if 65 ≤ c.toNat ∧ c.toNat ≤ 90 then Char.ofNat (c.toNat + 32) else c

/-- Model of JavaScript `s.toLowerCase()` on ASCII text. -/
def jsToLower (s : String) : String :=
  ⟨s.data.map charToLower⟩

/-- `s.split(sep)[0]` for a one-character separator: the characters before
the first occurrence of `sep` (the whole string when `sep` is absent),
exactly the first element JavaScript `split` returns. -/
def firstSeg (s : String) (sep : Char) : String :=
  ⟨s.data.takeWhile (fun c => c != sep)⟩

/-- Template-literal interpolation of a possibly-`undefined` string. -/
def jsStr : Option String → String
  | some s => s
  | none => "undefined"

/-- Template-literal interpolation of a possibly-`null` string. -/
def jsNullStr : Option String → String
  | some s => s
  | none => "null"

/-- Template-literal interpolation of a number that may be `NaN`. -/
def jsNaNStr : Option Nat → String
  | some n => toString n
  | none => "NaN"

/-- JavaScript `n.toString().padStart(2, '0')` for a natural number. -/
def pad2 (n : Nat) : String :=
  let s := toString n
  if s.length < 2 then "0" ++ s else s

/-- JavaScript `l.join('\n')`. -/
def joinNewline : List String → String
  | [] => ""
  | [x] => x
  | x :: xs => x ++ "\n" ++ joinNewline xs

/-- Lexicographic comparison of character lists by code unit, the order
JavaScript's default `Array.prototype.sort()` comparator induces on the
ASCII URLs this program sorts. -/
def charListLe : List Char → List Char → Bool
  | [], _ => true
  | _ :: _, [] => false
  | a :: as, b :: bs =>
      if a.toNat < b.toNat then true
      else if b.toNat < a.toNat then false
      else charListLe as bs

/-- The string order of JavaScript's default sort comparator. -/
def stringLe (a b : String) : Bool :=
  charListLe a.data b.data

/-- `stringLe` as a decidable relation, for `List.insertionSort`. -/
def strLeProp : String → String → Prop :=
  fun a b => stringLe a b = true

instance : DecidableRel strLeProp :=
  fun a b => inferInstanceAs (Decidable (stringLe a b = true))

/-- `[...new Set(l)]` keeps the first occurrence of every element, in
order; `seen` holds the elements already emitted. -/
def jsSetDedupAux (seen : List String) : List String → List String
  | [] => []
  | x :: xs =>
      if x ∈ seen then jsSetDedupAux seen xs
      else x :: jsSetDedupAux (x :: seen) xs

/-- Model of JavaScript `[...new Set(l)]` for a list of strings. -/
def jsSetDedup (l : List String) : List String :=
  jsSetDedupAux [] l

/-! ## Data model -/

/-- One element of `data` in `LinkScraper.iterateMovieDates`:
`{ timeOp: time, movie: movieTitle }`.  `movie` is `none` when the
JavaScript value is `undefined` (no option matched the movie id). -/
structure Film where
  timeOp : String
  movie : Option String
deriving Repr, DecidableEq

/-- An `<option>` element as read in `iterateMovieDates`:
`{ value: option.value, text: option.textContent }`. -/
structure OptionEntry where
  value : String
  text : String
deriving Repr, DecidableEq

/-- One element of the JSON array returned by the `/check` endpoint:
`{ status, time }`. -/
structure Entry where
  status : Int
  time : String
deriving Repr, DecidableEq

/-- The two response headers `restaurantAuthentication` reads from the
login POST; `none` models an absent header (`headers.get` returns
`null`). -/
structure LoginResponse where
  setCookie : Option String
  location : Option String
deriving Repr, DecidableEq

/-- The second fetch issued by `restaurantAuthentication`: the resolved
redirect URL and the value sent in the `Cookie` header. -/
structure AuthRequest where
  url : String
  cookie : String
deriving Repr, DecidableEq

/-- The scraping stages of `Application.run`, in the order the methods
are invoked; used to record which stages a run executes. -/
inductive Stage where
  | links
  | dates
  | cinema
  | restaurant
deriving Repr, DecidableEq

/-! ## `LinkScraper.extractLinks` (links-scraper.js lines 25–42)

The DOM work is modelled on the list of anchor `href` attribute values of
the fetched document: the `querySelectorAll` prefix selection becomes a
filter, and the `new URL(href, baseUrl).href` resolution of a
`./`-relative href is an explicit parameter `resolve` (the WHATWG URL
library is external code).  `Array.prototype.sort()` is specified as a
sorted permutation; it is modelled by insertion sort under `strLeProp`. -/

/-- The `a[href^="http://"], a[href^="https://"], a[href^="./"]` selector. -/
def hrefSelected (href : String) : Bool :=
  jsStartsWith href "http://" || jsStartsWith href "https://" || jsStartsWith href "./"

/-- `LinkScraper.extractLinks`: select by prefix, resolve `./`-relative
hrefs, sort, then deduplicate with `[...new Set(links)]`. -/
def extractLinks (resolve : String → String) (anchors : List String) : List String :=
  let links :=
    List.insertionSort strLeProp
      ((anchors.filter hrefSelected).map
        (fun href => if jsStartsWith href "./" then resolve href else href))
  jsSetDedup links

/-! ## Common available days (application.js lines 88–102)

`Application.extractDates` collects one ok-day list per calendar page into
`arrayDays`, then computes
`arrayDays.shift().filter(day => arrayDays.every(okDays => okDays.includes(day)))`.
`shift()` removes the first list, so the filter runs over the first list
with `every` ranging over the remaining ones.  On an empty `arrayDays`,
`shift()` yields `undefined` and the `.filter` call throws a `TypeError`;
that crash is modelled as `none`. -/
def commonDays : List (List String) → Option (List String)
  | [] => none
  | first :: rest =>
      some (first.filter (fun day => rest.all (fun okDays => okDays.contains day)))

/-! ## `LinkScraper.iterateMovieDates` (links-scraper.js lines 93–129)

The fetched cinema page supplies the option list of the `movie` select;
the `/check` endpoint is a function `fetchCheck` from the padded movie-id
string to the JSON entries (the day parameter is fixed for one call). -/

/-- Per-movie processing (lines 118–126): drop entries with `status === 0`,
keep the times, and attach the movie title (possibly `undefined`). -/
def processMovie (title : Option String) (content : List Entry) : List Film :=
  let removeZero := content.filter (fun num => num.status != 0)
  let times := removeZero.map (·.time)
  times.map (fun time => { timeOp := time, movie := title })

/-- Title lookup (lines 122–123): the option whose `value` attribute equals
the two-digit movie-id string, `undefined` when there is none. -/
def movieTitleFor (options : List OptionEntry) (movieString : String) : Option String :=
  (options.find? (fun option => option.value == movieString)).map (·.text)

/-- The movie loop of `iterateMovieDates` (lines 113–127): movie ids `1`
to `options.length - 1`, each queried and processed, results concatenated. -/
def iterateMovieDates (options : List OptionEntry)
    (fetchCheck : String → List Entry) : List Film :=
  (List.range' 1 (options.length - 1)).flatMap (fun movie =>
    let movieString := pad2 movie
    processMovie (movieTitleFor options movieString) (fetchCheck movieString))

/-! ## `LinkScraper.restaurantAuthentication` (links-scraper.js lines 158–183)

After the login POST the function reads the `set-cookie` and `location`
headers and unconditionally issues the redirect fetch; a missing header is
`null`, which the template literal (resp. the `Cookie` header init)
renders as the string `"null"`.  The `Except` result records whether the
step aborts before that fetch — the source never does. -/
def restaurantAuthentication (thirdLink : String) (resp : LoginResponse) :
    Except String AuthRequest :=
  let cookie := resp.setCookie
  let redirectUrl := thirdLink ++ jsNullStr resp.location
  Except.ok { url := redirectUrl, cookie := jsNullStr cookie }

/-! ## `LinkScraper.sortAvailability` (links-scraper.js lines 196–224)

The DOM query `input[name="group1"]` is modelled by passing the list of
those inputs' `value` attributes. -/

/-- Day filter (lines 199–204): lowercase the available days, keep a slot
code iff some lowercased day starts with the code's first three
characters (taken verbatim). -/
def filterDays (inputElements dateInfo : List String) : List String :=
  let dateLower := dateInfo.map jsToLower
  inputElements.filter (fun input =>
    let firstThree := jsSlice input 0 3
    dateLower.any (fun day => jsStartsWith day firstThree))

/-- Slot selection for one film (lines 207–214): slots whose characters 3–5
parse to the film's hour plus two (`===`, so a `NaN` never matches). -/
def filteredTimes (slots : List String) (film : Film) : List String :=
  let hour := jsParseInt (firstSeg film.timeOp ':')
  let hourTwo := hour.map (· + 2)
  slots.filter (fun timeSlot =>
    let timeStart := jsParseInt (jsSlice timeSlot 3 5)
    jsStrictEq timeStart hourTwo)

/-- Reservation strings (lines 216–220): `` `${timeStart}-${timeEnd}` ``. -/
def resTime (slots : List String) : List String :=
  slots.map (fun timeSlot =>
    let timeStart := jsParseInt (jsSlice timeSlot 3 5)
    let timeEnd := jsParseInt (jsSliceFrom timeSlot 5)
    jsNaNStr timeStart ++ "-" ++ jsNaNStr timeEnd)

/-- `LinkScraper.sortAvailability`: for every film, the matching day-filtered
slots rendered as reservation strings, concatenated over the films. -/
def sortAvailability (inputElements : List String) (cinemaInfo : List Film)
    (dateInfo : List String) : List String :=
  let fd := filterDays inputElements dateInfo
  cinemaInfo.flatMap (fun film => resTime (filteredTimes fd film))

/-! ## `Application.run` (application.js lines 27–53) -/

/-- The suggestion sentence built at line 46:
`` `On ${date}, "${cinema.movie}" Begins at ${cinema.timeOp}, and there is a free table between ${restaurant}` ``. -/
def suggestionLine (date : String) (cinema : Film) (restaurant : String) : String :=
  "On " ++ date ++ ", \"" ++ jsStr cinema.movie ++ "\" Begins at " ++
    cinema.timeOp ++ ", and there is a free table between " ++ restaurant

/-- The restaurant windows kept for one film (lines 41–44): keep a window
iff its start number `!==` the film's start number. -/
def restaurantTime (restaurantInfo : List String) (cinema : Film) : List String :=
  let movieStartTime := jsNumber (firstSeg cinema.timeOp ':')
  restaurantInfo.filter (fun restaurant =>
    let restaurantStartTime := jsNumber (firstSeg restaurant '-')
    jsStrictNe movieStartTime restaurantStartTime)

/-- The nested loops of lines 38–50: days outer, films middle, kept
restaurant windows inner, each combination pushing one sentence. -/
def results (dateInfo : List String) (cinemaInfo : List Film)
    (restaurantInfo : List String) : List String :=
  dateInfo.flatMap (fun date =>
    cinemaInfo.flatMap (fun cinema =>
      (restaurantTime restaurantInfo cinema).map
        (fun restaurant => suggestionLine date cinema restaurant)))

/-- Line 51: `'\nSuggestions:\n' + [...new Set(results)].join('\n')`. -/
def finalResult (dateInfo : List String) (cinemaInfo : List Film)
    (restaurantInfo : List String) : String :=
  "\nSuggestions:\n" ++
    joinNewline (jsSetDedup (results dateInfo cinemaInfo restaurantInfo))

/-- `Application.run`, with the scraping stages as environment data:
`dateInfo` is what `extractDates` returned, and `cinemaInfo` /
`restaurantInfo` are what the cinema and restaurant stages would return if
invoked.  The returned trace lists the stages the run actually executes:
when `dateInfo` is empty the run returns `'No Dates Available'` before
`extractCinema` and `extractRestaurant` are called. -/
def runModel (dateInfo : List String) (cinemaInfo : List Film)
    (restaurantInfo : List String) : String × List Stage :=
  if dateInfo.length = 0 then
    ("No Dates Available", [Stage.links, Stage.dates])
  else
    (finalResult dateInfo cinemaInfo restaurantInfo,
      [Stage.links, Stage.dates, Stage.cinema, Stage.restaurant])

/-! ## Predicates taken from the specification's words

These two definitions are *not* translated from the source: they state the
spec's wording of the output-sentence format and of the slot-code day
match, for comparison with the behaviour the source implements. -/

/-- The suggestion-sentence shape the specification asserts:
`On {Day}, "{MovieTitle}" begins at {HH:MM}, and there is a free table between {H}-{H}.`
(lower-case `begins`, trailing period). -/
def specSuggestionLine (day movieTitle time window : String) : String :=
  "On " ++ day ++ ", \"" ++ movieTitle ++ "\" begins at " ++ time ++
    ", and there is a free table between " ++ window ++ "."

/-- The day match the specification asserts for slot codes: the code's
three-character prefix matches the start of the day's name
*case-insensitively* (both sides lowercased). -/
def specDayMatch (input day : String) : Bool :=
  jsStartsWith (jsToLower day) (jsToLower (jsSlice input 0 3))

/-! ## Helper lemmas -/

theorem mem_jsSetDedupAux {a : String} {seen l} :
    a ∈ jsSetDedupAux seen l ↔ a ∈ l ∧ a ∉ seen := by
  induction l generalizing seen with
  | nil => simp [jsSetDedupAux]
  | cons x xs ih =>
      by_cases hx : x ∈ seen
      · rw [jsSetDedupAux, if_pos hx, ih]
        constructor
        · rintro ⟨h1, h2⟩; exact ⟨List.mem_cons_of_mem _ h1, h2⟩
        · rintro ⟨h1, h2⟩
          rcases List.mem_cons.mp h1 with rfl | h1
          · exact absurd hx h2
          · exact ⟨h1, h2⟩
      · rw [jsSetDedupAux, if_neg hx]
        constructor
        · intro h
          rcases List.mem_cons.mp h with rfl | h
          · exact ⟨List.mem_cons_self _ _, hx⟩
          · have h' := ih.mp h
            exact ⟨List.mem_cons_of_mem _ h'.1,
              fun hs => h'.2 (List.mem_cons_of_mem _ hs)⟩
        · rintro ⟨h1, h2⟩
          rcases List.mem_cons.mp h1 with rfl | h1
          · exact List.mem_cons_self _ _
          · by_cases hax : a = x
            · exact hax ▸ List.mem_cons_self _ _
            · refine List.mem_cons_of_mem _ (ih.mpr ⟨h1, fun hs => ?_⟩)
              exact (List.mem_cons.mp hs).elim hax h2

theorem mem_jsSetDedup {a : String} {l} : a ∈ jsSetDedup l ↔ a ∈ l := by
  simp [jsSetDedup, mem_jsSetDedupAux]

theorem jsSetDedupAux_sublist (seen : List String) (l : List String) :
    (jsSetDedupAux seen l).Sublist l := by
  induction l generalizing seen with
  | nil => simp [jsSetDedupAux]
  | cons x xs ih =>
      by_cases hx : x ∈ seen
      · simpa [jsSetDedupAux, if_pos hx] using (ih seen).cons x
      · simpa [jsSetDedupAux, if_neg hx] using (ih (x :: seen)).cons₂ x

theorem jsSetDedup_sublist (l : List String) : (jsSetDedup l).Sublist l :=
  jsSetDedupAux_sublist [] l

theorem jsSetDedupAux_nodup (seen : List String) (l : List String) :
    (jsSetDedupAux seen l).Nodup := by
  induction l generalizing seen with
  | nil => simp [jsSetDedupAux]
  | cons x xs ih =>
      by_cases hx : x ∈ seen
      · simpa [jsSetDedupAux, if_pos hx] using ih seen
      · simp only [jsSetDedupAux, if_neg hx, List.nodup_cons]
        refine ⟨fun hmem => ?_, ih (x :: seen)⟩
        exact (mem_jsSetDedupAux.mp hmem).2 (List.mem_cons_self x seen)

theorem jsSetDedup_nodup (l : List String) : (jsSetDedup l).Nodup :=
  jsSetDedupAux_nodup [] l

theorem jsSetDedupAux_of_nodup {seen : List String} {l : List String}
    (hdis : ∀ a ∈ l, a ∉ seen) (h : l.Nodup) : jsSetDedupAux seen l = l := by
  induction l generalizing seen with
  | nil => simp [jsSetDedupAux]
  | cons x xs ih =>
      have hx : x ∉ seen := hdis x (List.mem_cons_self x xs)
      simp only [jsSetDedupAux, if_neg hx]
      rw [ih ?_ (List.nodup_cons.mp h).2]
      intro a ha
      rcases List.nodup_cons.mp h with ⟨hxx, _⟩
      intro hmem
      rcases List.mem_cons.mp hmem with rfl | hmem
      · exact hxx ha
      · exact hdis a (List.mem_cons_of_mem _ ha) hmem

theorem jsSetDedup_of_nodup {l : List String} (h : l.Nodup) :
    jsSetDedup l = l :=
  jsSetDedupAux_of_nodup (by simp) h

theorem jsStrictEq_some_right {x : Option Nat} {b : Nat} :
    jsStrictEq x (some b) = true ↔ x = some b := by
  cases x <;> simp [jsStrictEq]

theorem jsStrictNe_some_some {x y : Nat} :
    jsStrictNe (some x) (some y) = true ↔ x ≠ y := by
  simp [jsStrictNe]

theorem string_contains_iff {l : List String} {a : String} :
    l.contains a = true ↔ a ∈ l := by
  simp [List.contains, List.elem_iff]

/-! ## Claim C3: common available days are the set intersection -/

/-- Claim C3. For every collection of per-source ok-day lists (the code
requires at least one source: on zero sources line 99 throws, modelled as
`commonDays = none`), the common-available-days computation of
`Application.extractDates` returns exactly the set intersection of the
lists — a day is in the result iff every source marks it ok — and if any
source list is empty the result is empty. -/
theorem commonDays_intersection (sources : List (List String)) (out : List String)
    (h : commonDays sources = some out) :
    (∀ d, d ∈ out ↔ ∀ l ∈ sources, d ∈ l) ∧
    ((∃ l ∈ sources, l = []) → out = []) := by
  match sources with
  | [] => simp [commonDays] at h
  | first :: rest =>
      rw [commonDays, Option.some.injEq] at h
      subst h
      constructor
      · intro d
        simp only [List.mem_filter, List.all_eq_true, List.mem_cons]
        constructor
        · rintro ⟨hd, hall⟩ l hl
          rcases hl with rfl | hl
          · exact hd
          · exact string_contains_iff.mp (hall l hl)
        · intro hall
          exact ⟨hall first (Or.inl rfl),
            fun l hl => string_contains_iff.mpr (hall l (Or.inr hl))⟩
      · rintro ⟨l, hl, rfl⟩
        rcases List.mem_cons.mp hl with hfst | hrest
        · rw [← hfst]; rfl
        · rw [List.filter_eq_nil_iff]
          intro d _ hpred
          rw [List.all_eq_true] at hpred
          exact absurd (string_contains_iff.mp (hpred [] hrest)) (List.not_mem_nil d)

/-- Witness for C3 at a concrete dataset of three sources. -/
theorem commonDays_intersection_witness :
    (∀ d, d ∈ ["Friday"] ↔
      ∀ l ∈ [["Friday", "Saturday"], ["Sunday", "Friday"], ["Friday"]], d ∈ l) ∧
    ((∃ l ∈ [["Friday", "Saturday"], ["Sunday", "Friday"], ["Friday"]],
        l = ([] : List String)) → ["Friday"] = []) :=
  commonDays_intersection
    [["Friday", "Saturday"], ["Sunday", "Friday"], ["Friday"]] ["Friday"] (by rfl)

/-! ## Claim C4: empty intersection short-circuits the run -/

/-- Claim C4. Whenever the intersection of per-source ok-day lists is
empty, `Application.run` returns the fixed message `No Dates Available`
and the cinema and restaurant stages are never executed. -/
theorem run_no_common_day_short_circuit (sources : List (List String))
    (dateInfo : List String) (cinemaInfo : List Film) (restaurantInfo : List String)
    (hsrc : commonDays sources = some dateInfo) (hempty : dateInfo = []) :
    (runModel dateInfo cinemaInfo restaurantInfo).1 = "No Dates Available" ∧
    Stage.cinema ∉ (runModel dateInfo cinemaInfo restaurantInfo).2 ∧
    Stage.restaurant ∉ (runModel dateInfo cinemaInfo restaurantInfo).2 := by
  have _ := hsrc
  subst hempty
  refine ⟨rfl, ?_, ?_⟩ <;> simp [runModel]

/-- Witness for C4: two calendars with no day in common. -/
theorem run_no_common_day_short_circuit_witness :
    (runModel [] [] []).1 = "No Dates Available" ∧
    Stage.cinema ∉ (runModel [] [] []).2 ∧
    Stage.restaurant ∉ (runModel [] [] []).2 :=
  run_no_common_day_short_circuit [["Friday"], ["Saturday"]] [] [] [] (by rfl) rfl

/-! ## Claim C6: the showtime collector keeps exactly the nonzero-status entries -/

/-- Claim C6. For every per-(day,movie) JSON response, the per-movie step
of `LinkScraper.iterateMovieDates` keeps exactly the entries whose status
is not 0, pairing each surviving time with the movie title; the response
`[{status:0,time:"10:00"},{status:1,time:"16:00"}]` yields exactly one
Showing, whose time is `16:00`. -/
theorem iterateMovieDates_status_filter (title : Option String) (content : List Entry) :
    (∀ f : Film, f ∈ processMovie title content ↔
      ∃ e ∈ content, e.status ≠ 0 ∧ f = { timeOp := e.time, movie := title }) ∧
    processMovie title [{ status := 0, time := "10:00" }, { status := 1, time := "16:00" }] =
      [{ timeOp := "16:00", movie := title }] := by
  constructor
  · intro f
    simp only [processMovie, List.map_map, List.mem_map, List.mem_filter,
      bne_iff_ne, ne_eq, Function.comp]
    constructor
    · rintro ⟨e, ⟨he, hs⟩, rfl⟩
      exact ⟨e, he, hs, rfl⟩
    · rintro ⟨e, he, hs, rfl⟩
      exact ⟨e, ⟨he, hs⟩, rfl⟩
  · rfl

/-! ## Claim C2: the two-hour rule of the reconciler -/

/-- Claim C2. For every Showing whose start-time hour parses to `hour` and
every day-matching slot code, `LinkScraper.sortAvailability` selects the
slot iff the slot's encoded start hour (characters 3–5) equals
`hour + 2`; in particular a Showing at `16:00` with the day-matching code
`fri1820` yields exactly the reservation string `18-20`. -/
theorem sortAvailability_two_hour_rule (inputElements dateInfo : List String)
    (film : Film) (slot : String) (hour : Nat)
    (h : jsParseInt (firstSeg film.timeOp ':') = some hour) :
    (slot ∈ filteredTimes (filterDays inputElements dateInfo) film ↔
      slot ∈ filterDays inputElements dateInfo ∧
        jsParseInt (jsSlice slot 3 5) = some (hour + 2)) ∧
    sortAvailability ["fri1820"] [{ timeOp := "16:00", movie := some "Movie" }] ["Friday"] =
      ["18-20"] := by
  refine ⟨?_, by decide⟩
  simp only [filteredTimes, List.mem_filter, h, Option.map_some']
  exact and_congr_right (fun _ => jsStrictEq_some_right)

/-- Witness for C2 at the fixture data: day `Friday`, showing `16:00`,
slot code `fri1820`. -/
theorem sortAvailability_two_hour_rule_witness :
    ("fri1820" ∈ filteredTimes (filterDays ["fri1820"] ["Friday"])
        { timeOp := "16:00", movie := some "Movie" } ↔
      "fri1820" ∈ filterDays ["fri1820"] ["Friday"] ∧
        jsParseInt (jsSlice "fri1820" 3 5) = some (16 + 2)) ∧
    sortAvailability ["fri1820"] [{ timeOp := "16:00", movie := some "Movie" }] ["Friday"] =
      ["18-20"] :=
  sortAvailability_two_hour_rule ["fri1820"] ["Friday"]
    { timeOp := "16:00", movie := some "Movie" } "fri1820" 16 (by rfl)

/-! ## Claim C7: the day-prefix filter is not fully case-insensitive -/

/-- Claim C7, counterexample. The claim says a slot code is retained iff
its three-character prefix matches an available day's name
case-insensitively; the code `FRI1820` with day `Friday` matches
case-insensitively (`specDayMatch`) yet `filterDays` drops it, because the
source lowercases only the day, never the code's prefix. -/
theorem filterDays_case_insensitive_counterexample :
    ¬ (("FRI1820" ∈ filterDays ["FRI1820"] ["Friday"]) ↔
        specDayMatch "FRI1820" "Friday" = true) := by
  decide

/-- Claim C7, amended: `LinkScraper.sortAvailability` retains a slot code
iff its three-character prefix, taken verbatim, is a prefix of the
*lowercased* name of at least one available day (so the match is
case-insensitive in the day's name only, not in the code). -/
theorem filterDays_day_prefix (inputElements dateInfo : List String) (input : String) :
    input ∈ filterDays inputElements dateInfo ↔
      input ∈ inputElements ∧
        ∃ day ∈ dateInfo, jsStartsWith (jsToLower day) (jsSlice input 0 3) = true := by
  simp only [filterDays, List.mem_filter, List.any_eq_true, List.mem_map]
  constructor
  · rintro ⟨hmem, x, ⟨day, hday, rfl⟩, hsw⟩
    exact ⟨hmem, day, hday, hsw⟩
  · rintro ⟨hmem, day, hday, hsw⟩
    exact ⟨hmem, jsToLower day, ⟨day, hday, rfl⟩, hsw⟩

/-! ## Claim C5: the final join keeps a pair iff the start hours differ -/

/-- Claim C5. In `Application.run`'s final assembly, for every
(day, Showing, reservation-window) combination a suggestion is emitted iff
the window's start hour differs from the Showing's start hour — included
whenever they differ, even when the window starts earlier than the movie
(the witness instantiates a `14-16` window against a `16:00` showing). -/
theorem run_join_start_hour_guard (restaurantInfo : List String) (date : String)
    (cinema : Film) (restaurant : String) (movieHour windowHour : Nat)
    (h1 : jsNumber (firstSeg cinema.timeOp ':') = some movieHour)
    (h2 : jsNumber (firstSeg restaurant '-') = some windowHour) :
    (restaurant ∈ restaurantTime restaurantInfo cinema ↔
      restaurant ∈ restaurantInfo ∧ movieHour ≠ windowHour) ∧
    results [date] [cinema] restaurantInfo =
      (restaurantTime restaurantInfo cinema).map
        (fun r => suggestionLine date cinema r) := by
  constructor
  · simp only [restaurantTime, List.mem_filter, h1, h2]
    exact and_congr_right (fun _ => jsStrictNe_some_some)
  · simp [results]

/-- Witness for C5: the window `14-16`, which starts two hours before the
`16:00` showing, is nevertheless kept (16 ≠ 14). -/
theorem run_join_start_hour_guard_witness :
    ("14-16" ∈ restaurantTime ["14-16"] { timeOp := "16:00", movie := some "Movie" } ↔
      "14-16" ∈ ["14-16"] ∧ 16 ≠ 14) ∧
    results ["Friday"] [{ timeOp := "16:00", movie := some "Movie" }] ["14-16"] =
      (restaurantTime ["14-16"] { timeOp := "16:00", movie := some "Movie" }).map
        (fun r => suggestionLine "Friday" { timeOp := "16:00", movie := some "Movie" } r) :=
  run_join_start_hour_guard ["14-16"] "Friday"
    { timeOp := "16:00", movie := some "Movie" } "14-16" 16 14 (by rfl) (by rfl)

/-! ## Claim C9: missing auth headers do not abort the step -/

/-- Claim C9, counterexample. The claim says a login response lacking
`Set-Cookie` or `Location` makes the step fail before fetching the
availability page; in the source `restaurantAuthentication` performs no
header check: with both headers absent it still proceeds, fetching
`{thirdLink}null` with the `Cookie` header value `null`. -/
theorem restaurantAuthentication_missing_headers_counterexample :
    restaurantAuthentication "https://r.test" { setCookie := none, location := none } =
      Except.ok { url := "https://r.testnull", cookie := "null" } ∧
    (restaurantAuthentication "https://r.test"
      { setCookie := none, location := none }).isOk = true := by
  exact ⟨rfl, rfl⟩

/-- Claim C9, amended: `LinkScraper.restaurantAuthentication` never fails
on missing headers — it always proceeds to the availability fetch, a
missing `Location` interpolated as the literal text `null` into the
redirect URL and a missing cookie sent as the literal header value
`null`. -/
theorem restaurantAuthentication_no_header_validation (thirdLink : String)
    (resp : LoginResponse) :
    restaurantAuthentication thirdLink resp =
      Except.ok { url := thirdLink ++ jsNullStr resp.location,
                  cookie := jsNullStr resp.setCookie } :=
  rfl

/-! ## Claim C1: the literal shape of the suggestion output -/

theorem specSuggestionLine_getLast (day movieTitle time window : String) :
    (specSuggestionLine day movieTitle time window).data.getLast? = some '.' := by
  simp only [specSuggestionLine]
  rw [String.data_append]
  exact List.getLast?_concat _

/-- Claim C1, counterexample. On the fixture data the produced sentence is
`On Friday, "A Day at the Races" Begins at 16:00, and there is a free table between 18-20`
— capital `Begins`, no trailing period — which no instance of the claimed
literal form `On {Day}, "{MovieTitle}" begins at {HH:MM}, and there is a
free table between {H}-{H}.` can equal (every instance ends in `.`). -/
theorem run_suggestion_literal_counterexample :
    results ["Friday"] [{ timeOp := "16:00", movie := some "A Day at the Races" }] ["18-20"] =
      ["On Friday, \"A Day at the Races\" Begins at 16:00, and there is a free table between 18-20"] ∧
    (∀ day movieTitle time window,
      specSuggestionLine day movieTitle time window ≠
        "On Friday, \"A Day at the Races\" Begins at 16:00, and there is a free table between 18-20") := by
  refine ⟨by decide, fun day movieTitle time window heq => ?_⟩
  have h1 := specSuggestionLine_getLast day movieTitle time window
  rw [heq] at h1
  exact absurd h1 (by decide)

/-- Claim C1, amended: every line of the deduplicated suggestion list is a
sentence of the exact literal form
`On {Day}, "{MovieTitle}" Begins at {HH:MM}, and there is a free table between {H}-{H}`
(capital `Begins`, no trailing period), built from a scraped day, Showing
and window; the printed list is newline-separated and deduplicated
(identical sentences collapse to one line) and is preceded by a blank line
and a `Suggestions:` header. -/
theorem run_output_dedup_shape (dateInfo : List String) (cinemaInfo : List Film)
    (restaurantInfo : List String) (line : String)
    (hline : line ∈ jsSetDedup (results dateInfo cinemaInfo restaurantInfo)) :
    (∃ date ∈ dateInfo, ∃ cinema ∈ cinemaInfo, ∃ window ∈ restaurantInfo,
      line = suggestionLine date cinema window) ∧
    (jsSetDedup (results dateInfo cinemaInfo restaurantInfo)).Nodup ∧
    finalResult dateInfo cinemaInfo restaurantInfo =
      "\nSuggestions:\n" ++
        joinNewline (jsSetDedup (results dateInfo cinemaInfo restaurantInfo)) := by
  refine ⟨?_, jsSetDedup_nodup _, rfl⟩
  have h := mem_jsSetDedup.mp hline
  simp only [results, List.mem_flatMap, List.mem_map] at h
  obtain ⟨date, hdate, cinema, hcin, window, hwin, rfl⟩ := h
  simp only [restaurantTime] at hwin
  exact ⟨date, hdate, cinema, hcin, window, (List.mem_filter.mp hwin).1, rfl⟩

/-- Witness for C1 (amended): the fixture line is of the produced shape. -/
theorem run_output_dedup_shape_witness :
    (∃ date ∈ ["Friday"], ∃ cinema ∈ [({ timeOp := "16:00", movie := some "Movie" } : Film)],
      ∃ window ∈ ["18-20"],
        "On Friday, \"Movie\" Begins at 16:00, and there is a free table between 18-20" =
          suggestionLine date cinema window) ∧
    (jsSetDedup (results ["Friday"] [{ timeOp := "16:00", movie := some "Movie" }]
        ["18-20"])).Nodup ∧
    finalResult ["Friday"] [{ timeOp := "16:00", movie := some "Movie" }] ["18-20"] =
      "\nSuggestions:\n" ++
        joinNewline (jsSetDedup (results ["Friday"]
          [{ timeOp := "16:00", movie := some "Movie" }] ["18-20"])) :=
  run_output_dedup_shape ["Friday"] [{ timeOp := "16:00", movie := some "Movie" }] ["18-20"]
    "On Friday, \"Movie\" Begins at 16:00, and there is a free table between 18-20" (by decide)

/-! ## Claim C10: the movie title is looked up by option value, not position -/

/-- Claim C10. In `LinkScraper.iterateMovieDates` the title attached to a
Showing comes from the option whose `value` attribute equals the two-digit
zero-padded movie id (`movieTitleFor`), not from the option's positional
index; when no option has that value the Showings are still emitted, with
an undefined (`none`) title.  The second conjunct shows value-based lookup
on options listed out of positional order; the third shows emission with
an undefined title when no option value matches. -/
theorem iterateMovieDates_title_by_value (options : List OptionEntry)
    (fetchCheck : String → List Entry) (movie : Nat)
    (h1 : 1 ≤ movie) (h2 : movie < options.length) :
    (∀ f ∈ processMovie (movieTitleFor options (pad2 movie)) (fetchCheck (pad2 movie)),
        f ∈ iterateMovieDates options fetchCheck ∧
          f.movie = movieTitleFor options (pad2 movie)) ∧
    iterateMovieDates
        [{ value := "00", text := "Placeholder" }, { value := "02", text := "Beta" },
          { value := "01", text := "Alpha" }]
        (fun m => [{ status := 1, time := m }]) =
      [{ timeOp := "01", movie := some "Alpha" }, { timeOp := "02", movie := some "Beta" }] ∧
    iterateMovieDates
        [{ value := "00", text := "Placeholder" }, { value := "xx", text := "Beta" }]
        (fun m => [{ status := 1, time := m }]) =
      [{ timeOp := "01", movie := none }] := by
  refine ⟨?_, by decide, by decide⟩
  intro f hf
  constructor
  · rw [iterateMovieDates, List.mem_flatMap]
    refine ⟨movie, ?_, hf⟩
    rw [List.mem_range'_1]
    omega
  · simp only [processMovie, List.map_map, List.mem_map] at hf
    obtain ⟨e, _, rfl⟩ := hf
    rfl

/-- Witness for C10 at movie id 1 of the out-of-order option list. -/
theorem iterateMovieDates_title_by_value_witness :
    iterateMovieDates
        [{ value := "00", text := "Placeholder" }, { value := "02", text := "Beta" },
          { value := "01", text := "Alpha" }]
        (fun m => [{ status := 1, time := m }]) =
      [{ timeOp := "01", movie := some "Alpha" }, { timeOp := "02", movie := some "Beta" }] :=
  (iterateMovieDates_title_by_value
    [{ value := "00", text := "Placeholder" }, { value := "02", text := "Beta" },
      { value := "01", text := "Alpha" }]
    (fun m => [{ status := 1, time := m }]) 1 (by decide) (by decide)).2.1

/-! ## Claim C8: link extraction is sorted, duplicate-free, idempotent and
order-independent -/

theorem charListLe_total : ∀ as bs : List Char,
    charListLe as bs = true ∨ charListLe bs as = true := by
  intro as
  induction as with
  | nil => intro bs; left; rfl
  | cons a as ih =>
      intro bs
      cases bs with
      | nil => right; rfl
      | cons b bs =>
          by_cases hab : a.toNat < b.toNat
          · left; simp [charListLe, hab]
          · by_cases hba : b.toNat < a.toNat
            · right; simp [charListLe, hba]
            · rcases ih bs with h | h
              · left; simp [charListLe, hab, hba, h]
              · right; simp [charListLe, hab, hba, h]

theorem charListLe_trans : ∀ as bs cs : List Char,
    charListLe as bs = true → charListLe bs cs = true → charListLe as cs = true := by
  intro as
  induction as with
  | nil => intro bs cs _ _; rfl
  | cons a as ih =>
      intro bs cs h1 h2
      cases bs with
      | nil => simp [charListLe] at h1
      | cons b bs =>
          cases cs with
          | nil => simp [charListLe] at h2
          | cons c cs =>
              by_cases hab : a.toNat < b.toNat
              · by_cases hbc : b.toNat < c.toNat
                · simp [charListLe, Nat.lt_trans hab hbc]
                · by_cases hcb : c.toNat < b.toNat
                  · simp [charListLe, hbc, hcb] at h2
                  · have hac : a.toNat < c.toNat := by omega
                    simp [charListLe, hac]
              · by_cases hba : b.toNat < a.toNat
                · simp [charListLe, hab, hba] at h1
                · by_cases hbc : b.toNat < c.toNat
                  · have hac : a.toNat < c.toNat := by omega
                    simp [charListLe, hac]
                  · by_cases hcb : c.toNat < b.toNat
                    · simp [charListLe, hbc, hcb] at h2
                    · have hac : ¬ a.toNat < c.toNat := by omega
                      have hca : ¬ c.toNat < a.toNat := by omega
                      simp only [charListLe, if_neg hab, if_neg hba] at h1
                      simp only [charListLe, if_neg hbc, if_neg hcb] at h2
                      simp only [charListLe, if_neg hac, if_neg hca]
                      exact ih bs cs h1 h2

theorem charListLe_antisymm : ∀ as bs : List Char,
    charListLe as bs = true → charListLe bs as = true → as = bs := by
  intro as
  induction as with
  | nil =>
      intro bs _ h2
      cases bs with
      | nil => rfl
      | cons b bs => simp [charListLe] at h2
  | cons a as ih =>
      intro bs h1 h2
      cases bs with
      | nil => simp [charListLe] at h1
      | cons b bs =>
          by_cases hab : a.toNat < b.toNat
          · have hba : ¬ b.toNat < a.toNat := by omega
            simp [charListLe, hab, hba] at h2
          · by_cases hba : b.toNat < a.toNat
            · simp [charListLe, hab, hba] at h1
            · have hval : a.toNat = b.toNat := by omega
              have hch : a = b :=
                Char.eq_of_val_eq (UInt32.eq_of_val_eq (Fin.eq_of_val_eq hval))
              subst hch
              simp only [charListLe, if_neg hab, if_neg hba] at h1 h2
              rw [ih bs h1 h2]

theorem stringLe_antisymm {a b : String} (h1 : stringLe a b = true)
    (h2 : stringLe b a = true) : a = b :=
  String.toList_inj.mp (charListLe_antisymm a.data b.data h1 h2)

/-- Claim C8. For every HTML input (modelled by its anchor href values and
the URL resolver), `LinkScraper.extractLinks` returns a lexicographically
sorted, duplicate-free list of absolute URLs, and it is idempotent and
order-independent: feeding its output back in reproduces it, and permuted
anchors yield the same list.  The hypothesis states the two facts true of
the WHATWG resolver: a resolved URL starts with `http://` or `https://`
and not with `./`. -/
theorem extractLinks_sorted_dedup_idempotent (resolve : String → String)
    (anchors anchors' : List String)
    (hres : ∀ s,
      (jsStartsWith (resolve s) "http://" || jsStartsWith (resolve s) "https://") = true ∧
      jsStartsWith (resolve s) "./" = false) :
    (∀ link ∈ extractLinks resolve anchors,
      (jsStartsWith link "http://" || jsStartsWith link "https://") = true) ∧
    (extractLinks resolve anchors).Sorted strLeProp ∧
    (extractLinks resolve anchors).Nodup ∧
    extractLinks resolve (extractLinks resolve anchors) = extractLinks resolve anchors ∧
    (anchors.Perm anchors' → extractLinks resolve anchors = extractLinks resolve anchors') := by
  haveI : IsTrans String strLeProp := ⟨fun a b c => charListLe_trans a.data b.data c.data⟩
  haveI : IsTotal String strLeProp := ⟨fun a b => charListLe_total a.data b.data⟩
  haveI : IsAntisymm String strLeProp := ⟨fun a b => stringLe_antisymm⟩
  have key : ∀ link ∈ extractLinks resolve anchors,
      (jsStartsWith link "http://" || jsStartsWith link "https://") = true ∧
      jsStartsWith link "./" = false := by
    intro link hlink
    have h := mem_jsSetDedup.mp hlink
    rw [List.mem_insertionSort, List.mem_map] at h
    obtain ⟨href, hhref, rfl⟩ := h
    by_cases hdot : jsStartsWith href "./" = true
    · rw [if_pos hdot]
      exact hres href
    · rw [if_neg hdot]
      have hsel := (List.mem_filter.mp hhref).2
      have hdot' : jsStartsWith href "./" = false := by
        revert hdot; cases jsStartsWith href "./" <;> simp
      rw [hrefSelected, hdot', Bool.or_false] at hsel
      exact ⟨hsel, hdot'⟩
  have hsorted : (extractLinks resolve anchors).Sorted strLeProp :=
    (List.sorted_insertionSort strLeProp _).sublist (jsSetDedup_sublist _)
  refine ⟨fun link hlink => (key link hlink).1, hsorted, jsSetDedup_nodup _, ?_, ?_⟩
  · have hfilter : (extractLinks resolve anchors).filter hrefSelected =
        extractLinks resolve anchors := by
      refine List.filter_eq_self.mpr (fun e he => ?_)
      have hor := (key e he).1
      rw [Bool.or_eq_true] at hor
      rcases hor with h | h <;> simp [hrefSelected, h]
    have hmap : (extractLinks resolve anchors).map
        (fun href => if jsStartsWith href "./" = true then resolve href else href) =
        extractLinks resolve anchors := by
      refine (List.map_congr_left (fun e he => ?_)).trans
        (List.map_id' (extractLinks resolve anchors))
      rw [if_neg]
      rw [(key e he).2]
      simp
    conv_lhs => rw [extractLinks]
    rw [hfilter]
    have hmap' : (extractLinks resolve anchors).map
        (fun href => if jsStartsWith href "./" then resolve href else href) =
        extractLinks resolve anchors := hmap
    rw [hmap']
    rw [List.Sorted.insertionSort_eq hsorted]
    exact jsSetDedup_of_nodup (jsSetDedup_nodup _)
  · intro hperm
    have hp : ((anchors.filter hrefSelected).map
          (fun href => if jsStartsWith href "./" then resolve href else href)).Perm
        ((anchors'.filter hrefSelected).map
          (fun href => if jsStartsWith href "./" then resolve href else href)) :=
      (hperm.filter _).map _
    have heq :
        List.insertionSort strLeProp
          ((anchors.filter hrefSelected).map
            (fun href => if jsStartsWith href "./" then resolve href else href)) =
        List.insertionSort strLeProp
          ((anchors'.filter hrefSelected).map
            (fun href => if jsStartsWith href "./" then resolve href else href)) :=
      List.eq_of_perm_of_sorted
        ((List.perm_insertionSort _ _).trans (hp.trans (List.perm_insertionSort _ _).symm))
        (List.sorted_insertionSort _ _) (List.sorted_insertionSort _ _)
    rw [extractLinks, extractLinks, heq]

/-- Witness for C8: idempotence and order-independence at a concrete
resolver and concrete anchor lists (one a permutation of the other). -/
theorem extractLinks_sorted_dedup_idempotent_witness :
    extractLinks (fun _ => "https://x.test/a")
        (extractLinks (fun _ => "https://x.test/a") ["./b", "https://a.test", "./b"]) =
      extractLinks (fun _ => "https://x.test/a") ["./b", "https://a.test", "./b"] ∧
    extractLinks (fun _ => "https://x.test/a") ["./b", "https://a.test", "./b"] =
      extractLinks (fun _ => "https://x.test/a") ["https://a.test", "./b", "./b"] :=
  ⟨(extractLinks_sorted_dedup_idempotent (fun _ => "https://x.test/a")
      ["./b", "https://a.test", "./b"] ["https://a.test", "./b", "./b"]
      (fun _ => ⟨rfl, rfl⟩)).2.2.2.1,
    (extractLinks_sorted_dedup_idempotent (fun _ => "https://x.test/a")
      ["./b", "https://a.test", "./b"] ["https://a.test", "./b", "./b"]
      (fun _ => ⟨rfl, rfl⟩)).2.2.2.2 (by decide)⟩

end Scraper
